import Mathlib

/-!
Verification of the pdfmarkdown layout-analysis core against its
natural-language specification.

The Go source is shallowly embedded: `float64` is modelled as `ℚ`
(all the operations the verified claims touch are exact field
operations and comparisons), Go slices as `List`, runes as `Char`,
and Go strings as `List Char` (rune sequences).  `math.MaxFloat64`
is modelled as the exact rational value of the largest finite
`float64`.  Go's `sort.Slice` is an unstable comparison sort; it is
modelled by an insertion sort over the same "less" predicate (every
theorem proved about a sorted result only uses sortedness and
multiset equality, which hold for any correct implementation).
Go map iteration (unspecified order) is noted at its occurrences.
-/

set_option maxRecDepth 100000

attribute [local semireducible] Rat.add Rat.sub Rat.mul Rat.inv Rat.ofScientific

/-- Largest finite float64, the exact value of Go's `math.MaxFloat64`. -/
def maxFloat64 : ℚ := ((2 ^ 1024 - 2 ^ 971 : ℕ) : ℚ)

/-- Go's `math.Min` (no NaNs in the rational model). -/
def mathMin (a b : ℚ) : ℚ := if a ≤ b then a else b

/-- Go's `math.Max`. -/
def mathMax (a b : ℚ) : ℚ := if a ≤ b then b else a

/-- Embeds `Rect` from the source: axis-aligned box, top-left coordinates. -/
structure Rect where
  x0 : ℚ
  y0 : ℚ
  x1 : ℚ
  y1 : ℚ
deriving DecidableEq, Repr

/-- Embeds `Rect.Width`. -/
def Rect.width (r : Rect) : ℚ := r.x1 - r.x0

/-- Embeds `Rect.Height`. -/
def Rect.height (r : Rect) : ℚ := r.y1 - r.y0

/-- Embeds `Rect.CenterX`. -/
def Rect.centerX (r : Rect) : ℚ := (r.x0 + r.x1) / 2

/-- Embeds `Rect.CenterY`. -/
def Rect.centerY (r : Rect) : ℚ := (r.y0 + r.y1) / 2

/-- Embeds `mergeRects` from utils.go: bounding box of two rectangles. -/
def mergeRects (r1 r2 : Rect) : Rect :=
  { x0 := mathMin r1.x0 r2.x0
    y0 := mathMin r1.y0 r2.y0
    x1 := mathMax r1.x1 r2.x1
    y1 := mathMax r1.y1 r2.y1 }

/-- Embeds `checkHorizontalOverlap` from utils.go: returns whether the two
rectangles overlap vertically (share a horizontal band) together with
which of the four overlap patterns holds (0 when none). -/
def checkHorizontalOverlap (r1 r2 : Rect) : Bool × Nat :=
  if r2.y0 ≤ r1.y0 ∧ r1.y0 ≤ r2.y1 ∧ r2.y1 ≤ r1.y1 then (true, 1)
  else if r1.y0 ≤ r2.y0 ∧ r2.y0 ≤ r1.y1 ∧ r1.y1 ≤ r2.y1 then (true, 2)
  else if r1.y0 ≤ r2.y0 ∧ r2.y0 ≤ r2.y1 ∧ r2.y1 ≤ r1.y1 then (true, 3)
  else if r2.y0 ≤ r1.y0 ∧ r1.y0 ≤ r1.y1 ∧ r1.y1 ≤ r2.y1 then (true, 4)
  else (false, 0)

/-- Embeds `horizontalOverlapRatio` from utils.go. -/
def horizontalOverlapRatio (r1 r2 : Rect) : ℚ :=
  let c := checkHorizontalOverlap r1 r2
  if c.1 = false then 0
  else
    let delta := mathMin r1.height r2.height
    if delta = 0 then 0
    else if c.2 = 1 then (r2.y1 - r1.y0) / delta
    else if c.2 = 2 then (r1.y1 - r2.y0) / delta
    else if c.2 = 3 then (r2.y1 - r2.y0) / delta
    else if c.2 = 4 then (r1.y1 - r1.y0) / delta
    else 0

/-- Embeds `checkVerticalOverlap` from utils.go (the x-axis analogue). -/
def checkVerticalOverlap (r1 r2 : Rect) : Bool × Nat :=
  if r2.x0 ≤ r1.x0 ∧ r1.x0 ≤ r2.x1 ∧ r2.x1 ≤ r1.x1 then (true, 1)
  else if r1.x0 ≤ r2.x0 ∧ r2.x0 ≤ r1.x1 ∧ r1.x1 ≤ r2.x1 then (true, 2)
  else if r1.x0 ≤ r2.x0 ∧ r2.x0 ≤ r2.x1 ∧ r2.x1 ≤ r1.x1 then (true, 3)
  else if r2.x0 ≤ r1.x0 ∧ r1.x0 ≤ r1.x1 ∧ r1.x1 ≤ r2.x1 then (true, 4)
  else (false, 0)

/-- Embeds `verticalOverlapRatio` from utils.go. -/
def verticalOverlapRatio (r1 r2 : Rect) : ℚ :=
  let c := checkVerticalOverlap r1 r2
  if c.1 = false then 0
  else
    let delta := mathMin r1.width r2.width
    if delta = 0 then 0
    else if c.2 = 1 then (r2.x1 - r1.x0) / delta
    else if c.2 = 2 then (r1.x1 - r2.x0) / delta
    else if c.2 = 3 then (r2.x1 - r2.x0) / delta
    else if c.2 = 4 then (r1.x1 - r1.x0) / delta
    else 0

/-- Embeds `horizontalDistance` from utils.go: gap between the rectangles when
they share a horizontal band, `math.MaxFloat64` otherwise. -/
def horizontalDistance (r1 r2 : Rect) : ℚ :=
  if (checkHorizontalOverlap r1 r2).1 = false then maxFloat64
  else if r1.x1 < r2.x0 then r2.x0 - r1.x1
  else if r2.x1 < r1.x0 then r1.x0 - r2.x1
  else 0

/-- Embeds `verticalDistance` from utils.go. -/
def verticalDistance (r1 r2 : Rect) : ℚ :=
  if (checkVerticalOverlap r1 r2).1 = false then maxFloat64
  else if r1.y1 < r2.y0 then r2.y0 - r1.y1
  else if r2.y1 < r1.y0 then r1.y0 - r2.y1
  else 0

/-- Embeds `clamp` from utils.go. -/
def clamp (value lo hi : ℚ) : ℚ :=
  if value < lo then lo else if value > hi then hi else value

/-- Go's `math.Abs`. -/
def mathAbs (x : ℚ) : ℚ := if x < 0 then -x else x

/-- Embeds `RGBA` colour, 8-bit channels. -/
structure RGBA where
  r : ℕ
  g : ℕ
  b : ℕ
  a : ℕ
deriving DecidableEq, Repr

/-- Embeds `EnrichedChar` from the source.  The Go `Angle float32` is modelled
as an exact rational; `Text rune` as `Char`; `FontName string` as a
rune sequence. -/
structure EnrichedChar where
  text : Char
  box : Rect
  fontSize : ℚ
  fontWeight : ℤ
  fontName : List Char
  fontFlags : ℕ
  fillColor : RGBA
  angle : ℚ
  isHyphen : Bool
deriving DecidableEq, Repr

/-- Embeds `EnrichedWord` from the source (`Text string` as rune sequence). -/
structure EnrichedWord where
  text : List Char
  box : Rect
  fontSize : ℚ
  fontWeight : ℤ
  fontName : List Char
  fontFlags : ℕ
  fillColor : RGBA
  isBold : Bool
  isItalic : Bool
  isMonospace : Bool
  baseline : ℚ
  xHeight : ℚ
  rotation : ℚ
deriving DecidableEq, Repr

/-- The Go zero value of `EnrichedWord` (`EnrichedWord{}`). -/
def EnrichedWord.zero : EnrichedWord :=
  { text := [], box := ⟨0, 0, 0, 0⟩, fontSize := 0, fontWeight := 0,
    fontName := [], fontFlags := 0, fillColor := ⟨0, 0, 0, 0⟩,
    isBold := false, isItalic := false, isMonospace := false,
    baseline := 0, xHeight := 0, rotation := 0 }

/-- Embeds `Line` from the source. -/
structure Line where
  words : List EnrichedWord
  box : Rect
  baseline : ℚ
deriving DecidableEq, Repr

/-- Embeds `Alignment` from the source (renamed: the plain name is taken by
an upstream library declaration). -/
inductive ParaAlignment where
  | left
  | center
  | right
  | justified
deriving DecidableEq, Repr

/-- Embeds `Paragraph` from the source. -/
structure Paragraph where
  lines : List Line
  box : Rect
  alignment : ParaAlignment
  isHeading : Bool
  headingLevel : ℤ
  isList : Bool
  isCode : Bool
  indent : ℚ
deriving DecidableEq, Repr

/-- Embeds `Column` from the source. -/
structure Column where
  box : Rect
  words : List EnrichedWord
  paragraphs : List Paragraph
  index : ℕ
deriving DecidableEq, Repr

/-- Embeds `CellBBox` from table_types.go. -/
structure CellBBox where
  x0 : ℚ
  top : ℚ
  x1 : ℚ
  bottom : ℚ
deriving DecidableEq, Repr

/-- Embeds `TableCell` from table_types.go. -/
structure TableCell where
  bbox : CellBBox
  content : List Char
  words : List EnrichedWord
deriving DecidableEq, Repr

/-- Embeds `TableRow` from table_types.go. -/
structure TableRow where
  cells : List TableCell
  bbox : CellBBox
deriving DecidableEq, Repr

/-- Embeds `Table` from table_types.go (row/column counts stay naturals). -/
structure Table where
  bbox : CellBBox
  rows : List TableRow
  cells : List CellBBox
  numRows : ℕ
  numCols : ℕ
deriving DecidableEq, Repr

/-- Embeds `calculateTableOverlap` from the extraction source: intersection
area over the smaller table's area. -/
def calculateTableOverlap (t1 t2 : Table) : ℚ :=
  let x0 := mathMax t1.bbox.x0 t2.bbox.x0
  let y0 := mathMax t1.bbox.top t2.bbox.top
  let x1 := mathMin t1.bbox.x1 t2.bbox.x1
  let y1 := mathMin t1.bbox.bottom t2.bbox.bottom
  if x1 ≤ x0 ∨ y1 ≤ y0 then 0
  else
    let intersectionArea := (x1 - x0) * (y1 - y0)
    let t1Area := (t1.bbox.x1 - t1.bbox.x0) * (t1.bbox.bottom - t1.bbox.top)
    let t2Area := (t2.bbox.x1 - t2.bbox.x0) * (t2.bbox.bottom - t2.bbox.top)
    let smallerArea := mathMin t1Area t2Area
    if smallerArea = 0 then 0 else intersectionArea / smallerArea

/-- The outer loop of `deduplicateTables`: keep a table iff no table
appearing after it overlaps it by more than 0.7 (the Go inner loop over
`j := i+1 ...` with early break is `List.any` over the suffix). -/
def dedupTablesLoop : List Table → List Table
  | [] => []
  | t :: rest =>
    if rest.any (fun t2 => decide (calculateTableOverlap t t2 > 0.7)) then
      dedupTablesLoop rest
    else t :: dedupTablesLoop rest

/-- Embeds `deduplicateTables` from the extraction source. -/
def deduplicateTables (tables : List Table) : List Table :=
  if tables.length ≤ 1 then tables else dedupTablesLoop tables

/-- Distinct values of a list in first-occurrence order. -/
def distinctFirstAux [DecidableEq α] (seen : List α) : List α → List α
  | [] => []
  | x :: xs =>
    if x ∈ seen then distinctFirstAux seen xs
    else x :: distinctFirstAux (x :: seen) xs

/-- Distinct values of a list, first occurrences first. -/
def distinctFirst [DecidableEq α] (xs : List α) : List α := distinctFirstAux [] xs

/-- The dominant (most frequent) value of a list, as computed by the
Go `map`-count-then-argmax idiom in `aggregateWord`.  Go iterates the
count map in unspecified order taking strict maxima; first-occurrence
order is one admissible iteration order.  `z` is the Go zero value
returned for an empty list. -/
def dominantValue [DecidableEq α] (xs : List α) (z : α) : α :=
  ((distinctFirst xs).foldl
    (fun best v => if xs.count v > best.2 then (v, xs.count v) else best)
    (z, 0)).1

/-- Embeds `calculateBaseline` from utils.go. -/
def calculateBaseline (word : EnrichedWord) : ℚ :=
  word.box.y1 - word.fontSize * 0.15

/-- Embeds `calculateXHeight` from utils.go. -/
def calculateXHeight (word : EnrichedWord) : ℚ :=
  if word.text.any (fun r => decide ('a' ≤ r ∧ r ≤ 'z')) then
    word.box.height * 0.7
  else word.fontSize * 0.5

/-- Embeds `aggregateWord` from the extraction source: build an `EnrichedWord`
from a glyph run and its accumulated box.  Note the rotation is the
mean glyph angle (radians) converted with the literal constant
`180 / 3.14159`; no angle normalisation is applied. -/
def aggregateWord (chars : List EnrichedChar) (box : Rect) : EnrichedWord :=
  match chars with
  | [] => EnrichedWord.zero
  | c0 :: _ =>
    let n : ℚ := (chars.length : ℚ)
    let text := chars.map (fun c => c.text)
    let avgFontSize := (chars.foldl (fun s c => s + c.fontSize) 0) / n
    let dominantWeight := dominantValue (chars.map (fun c => c.fontWeight)) 0
    let dominantFont := dominantValue (chars.map (fun c => c.fontName)) []
    let fontFlags := c0.fontFlags
    let isBold := decide (dominantWeight ≥ 700)
    let isItalic := fontFlags.land 0x40 ≠ 0
    let isMonospace := fontFlags.land 0x01 ≠ 0
    let avgAngle := (chars.foldl (fun s c => s + c.angle) 0) / n
    let word : EnrichedWord :=
      { text := text, box := box, fontSize := avgFontSize,
        fontWeight := dominantWeight, fontName := dominantFont,
        fontFlags := fontFlags, fillColor := c0.fillColor,
        isBold := isBold, isItalic := decide (isItalic),
        isMonospace := decide (isMonospace),
        baseline := 0, xHeight := 0,
        rotation := avgAngle * 180 / 3.14159 }
    { word with baseline := calculateBaseline word,
                xHeight := calculateXHeight word }

/-- Insertion step of the comparison sort modelling Go's `sort.Slice`. -/
def insertBy (lt : α → α → Bool) (x : α) : List α → List α
  | [] => [x]
  | y :: ys => if lt x y then x :: y :: ys else y :: insertBy lt x ys

/-- Comparison sort modelling Go's `sort.Slice` (which is unstable;
any correctly sorted permutation is an admissible result, and every
theorem below about a sorted result uses only sortedness and multiset
equality). -/
def sortBy (lt : α → α → Bool) : List α → List α
  | [] => []
  | x :: xs => insertBy lt x (sortBy lt xs)

/-- The `less` comparator on paragraphs used by `determineReadingOrder`. -/
def paragraphLt (p q : Paragraph) : Bool := decide (p.box.y0 < q.box.y0)

/-- The `less` comparator on columns used by `determineReadingOrder`. -/
def columnLt (c d : Column) : Bool := decide (c.box.x0 < d.box.x0)

/-- Embeds `Paragraph.CenterX` from the column source. -/
def Paragraph.centerX (p : Paragraph) : ℚ := (p.box.x0 + p.box.x1) / 2

/-- Membership test of a paragraph in a column's x-range as written in
`determineReadingOrder`. -/
def paragraphInColumn (col : Column) (p : Paragraph) : Bool :=
  decide (p.centerX ≥ col.box.x0 ∧ p.centerX < col.box.x1)

/-- Embeds `determineReadingOrder` from the column source. -/
def determineReadingOrder (paragraphs : List Paragraph) (columns : List Column) :
    List Paragraph :=
  if paragraphs.length = 0 then paragraphs
  else if columns.length ≤ 1 then sortBy paragraphLt paragraphs
  else
    let sortedCols := sortBy columnLt columns
    (sortedCols.map (fun col =>
      sortBy paragraphLt (paragraphs.filter (fun p => paragraphInColumn col p)))).flatten

/-- The baseline threshold of `groupWordsIntoHorizontalLines`
(rotation.go): `0.6 × x-height`, replaced by `5.0` when it is zero. -/
def baselineThreshold06 (xHeight : ℚ) : ℚ :=
  let threshold := 0.6 * xHeight
  if threshold = 0 then 5.0 else threshold

/-- The baseline-closeness test of `groupWordsIntoHorizontalLines`. -/
def baselineClose06 (wordBaseline lineBaseline xHeight : ℚ) : Bool :=
  decide (mathAbs (wordBaseline - lineBaseline) < baselineThreshold06 xHeight)

/-- The baseline threshold of `groupWordsIntoLinesBaseline`:
`0.4 × x-height`, replaced by `3.0` when it is zero. -/
def baselineThreshold04 (xHeight : ℚ) : ℚ :=
  let threshold := 0.4 * xHeight
  if threshold = 0 then 3.0 else threshold

/-- The baseline-closeness test of `groupWordsIntoLinesBaseline`. -/
def baselineClose04 (wordBaseline lineBaseline xHeight : ℚ) : Bool :=
  decide (mathAbs (wordBaseline - lineBaseline) < baselineThreshold04 xHeight)

/-- The scan loop of `groupWordsIntoLinesBaseline`: `currentLine` is
the open line (never empty), `lineBox`/`baseline`/`xHeight` its running
state; emits the open line at the end of input. -/
def groupLinesBaselineGo (currentLine : List EnrichedWord) (lineBox : Rect)
    (baseline xHeight : ℚ) : List EnrichedWord → List Line
  | [] => [{ words := currentLine, box := lineBox, baseline := baseline }]
  | w :: rest =>
    if baselineClose04 w.baseline baseline xHeight then
      let newBox : Rect :=
        { x0 := mathMin lineBox.x0 w.box.x0, y0 := mathMin lineBox.y0 w.box.y0,
          x1 := mathMax lineBox.x1 w.box.x1, y1 := mathMax lineBox.y1 w.box.y1 }
      let newBaseline :=
        (baseline * ((currentLine.length : ℚ)) + w.baseline) /
          ((currentLine.length : ℚ) + 1)
      groupLinesBaselineGo (currentLine ++ [w]) newBox newBaseline xHeight rest
    else
      { words := currentLine, box := lineBox, baseline := baseline } ::
        groupLinesBaselineGo [w] w.box w.baseline w.xHeight rest

/-- Embeds `groupWordsIntoLinesBaseline` from the paragraph-recognition source. -/
def groupWordsIntoLinesBaseline : List EnrichedWord → List Line
  | [] => []
  | w :: rest => groupLinesBaselineGo [w] w.box w.baseline w.xHeight rest

/-- The visual-position `less` comparator of
`groupWordsIntoHorizontalLines` (rotation.go).  It is not a strict weak
order, so Go's `sort.Slice` output on it is not fully specified;
`sortBy` fixes one admissible result. -/
def visualOrderLt (a b : EnrichedWord) : Bool :=
  let overlapY0 := mathMax a.box.y0 b.box.y0
  let overlapY1 := mathMin a.box.y1 b.box.y1
  let overlapHeight := overlapY1 - overlapY0
  let minHeight := mathMin a.box.height b.box.height
  if overlapHeight > minHeight * 0.3 then decide (a.box.x0 < b.box.x0)
  else decide (a.box.y0 < b.box.y0)

/-- The scan loop of `groupWordsIntoHorizontalLines` (rotation.go):
extends the open line when the word is visually centred on it or
baseline-close with the 0.6/5.0 threshold. -/
def groupHorizGo (currentLine : List EnrichedWord) (lineBox : Rect)
    (baseline xHeight : ℚ) : List EnrichedWord → List Line
  | [] => [{ words := currentLine, box := lineBox, baseline := baseline }]
  | w :: rest =>
    let lineCenterY := (lineBox.y0 + lineBox.y1) / 2
    let wordCenterY := (w.box.y0 + w.box.y1) / 2
    let centerDistance := mathAbs (wordCenterY - lineCenterY)
    let avgHeight := (lineBox.height + w.box.height) / 2
    let visuallySameLine := decide (centerDistance < avgHeight * 1.0)
    let close := baselineClose06 w.baseline baseline xHeight
    if visuallySameLine || close then
      let newBox : Rect :=
        { x0 := mathMin lineBox.x0 w.box.x0, y0 := mathMin lineBox.y0 w.box.y0,
          x1 := mathMax lineBox.x1 w.box.x1, y1 := mathMax lineBox.y1 w.box.y1 }
      let newBaseline :=
        (baseline * ((currentLine.length : ℚ)) + w.baseline) /
          ((currentLine.length : ℚ) + 1)
      groupHorizGo (currentLine ++ [w]) newBox newBaseline xHeight rest
    else
      { words := currentLine, box := lineBox, baseline := baseline } ::
        groupHorizGo [w] w.box w.baseline w.xHeight rest

/-- Embeds `groupWordsIntoHorizontalLines` from rotation.go. -/
def groupWordsIntoHorizontalLines (words : List EnrichedWord) : List Line :=
  match sortBy visualOrderLt words with
  | [] => []
  | w :: rest => groupHorizGo [w] w.box w.baseline w.xHeight rest

/-- Embeds `isCJK` from extract.go. -/
def isCJK (r : Char) : Bool :=
  decide ((0x4E00 ≤ r.toNat ∧ r.toNat ≤ 0x9FFF) ∨
    (0x3400 ≤ r.toNat ∧ r.toNat ≤ 0x4DBF) ∨
    (0x20000 ≤ r.toNat ∧ r.toNat ≤ 0x2A6DF) ∨
    (0x2A700 ≤ r.toNat ∧ r.toNat ≤ 0x2B73F) ∨
    (0x2B740 ≤ r.toNat ∧ r.toNat ≤ 0x2B81F) ∨
    (0x2B820 ≤ r.toNat ∧ r.toNat ≤ 0x2CEAF) ∨
    (0xF900 ≤ r.toNat ∧ r.toNat ≤ 0xFAFF) ∨
    (0x2F800 ≤ r.toNat ∧ r.toNat ≤ 0x2FA1F))

/-- Embeds `containsCJK` from extract.go. -/
def containsCJK (runes : List Char) : Bool := runes.any isCJK

/-- Inner scan of `deduplicateCJKChars`: `prev` is the previous rune of
the ORIGINAL text, `cond` the (loop-invariant) narrow-spacing test
`wordWidth / runeCount < 0.7 × fontSize`.  A rune is dropped exactly
when it equals the previous original rune, is CJK, and `cond` holds. -/
def dedupCJKScan (prev : Char) (cond : Bool) : List Char → List Char
  | [] => []
  | c :: rest =>
    if c = prev ∧ isCJK c ∧ cond then dedupCJKScan c cond rest
    else c :: dedupCJKScan c cond rest

/-- The per-word transformation of `deduplicateCJKChars` (extract.go). -/
def deduplicateCJKWord (w : EnrichedWord) : EnrichedWord :=
  if ¬ containsCJK w.text then w
  else if w.text.length ≤ 1 then w
  else
    match w.text with
    | [] => w
    | r0 :: rest =>
      let cond := decide (w.box.width / (w.text.length : ℚ) < w.fontSize * 0.7)
      { w with text := r0 :: dedupCJKScan r0 cond rest }

/-- Embeds `deduplicateCJKChars` from extract.go (in-place slice update = map). -/
def deduplicateCJKChars (words : List EnrichedWord) : List EnrichedWord :=
  words.map deduplicateCJKWord

/-- The pure clamp/validate step of `ConvertPageRange` (converter.go):
given the requested range and the page count, produce the page range
actually converted, or `none` for the "invalid page range" error.  Host
engine calls, page extraction and serialisation are outside the model. -/
def convertPageRangeValidate (startPage endPage pageCount : ℤ) :
    Option (ℤ × ℤ) :=
  let s := if startPage < 0 then 0 else startPage
  let e := if endPage < 0 ∨ endPage ≥ pageCount then pageCount - 1 else endPage
  if s > e then none else some (s, e)

/-- The page indices visited by the extraction loop
`for i := startPage; i <= endPage; i++` of `ConvertPageRange`. -/
def extractedPageIndices (s e : ℤ) : List ℤ :=
  (List.range (e + 1 - s).toNat).map (fun i => s + (i : ℤ))

/-- The single-character-punctuation test of `mergeCloseWords`.  Go
tests `len(word.Text) == 1` on the UTF-8 byte length; as the
punctuation set is ASCII, that agrees with this rune-length test. -/
def isSeparatePunctuation (w : EnrichedWord) : Bool :=
  if w.text.length = 1 then
    match w.text with
    | r :: _ =>
      r == '.' || r == ',' || r == ';' || r == ':' || r == '!' || r == '?' ||
      r == '-' || r == '(' || r == ')' || r == '[' || r == ']' ||
      r == '\x7b' || r == '\x7d'
    | [] => false
  else false

/-- Embeds `mergeWordGroup` from the paragraph-recognition source. -/
def mergeWordGroup : List EnrichedWord → EnrichedWord
  | [] => EnrichedWord.zero
  | [w] => w
  | w :: rest =>
    { text := (w :: rest).foldl (fun acc v => acc ++ v.text) []
      box := rest.foldl (fun b v =>
        { x0 := mathMin b.x0 v.box.x0, y0 := mathMin b.y0 v.box.y0,
          x1 := mathMax b.x1 v.box.x1, y1 := mathMax b.y1 v.box.y1 }) w.box
      fontSize := w.fontSize
      fontWeight := w.fontWeight
      fontName := w.fontName
      fontFlags := w.fontFlags
      fillColor := w.fillColor
      isBold := w.isBold
      isItalic := w.isItalic
      isMonospace := w.isMonospace
      baseline := 0
      xHeight := 0
      rotation := 0 }

/-- Emit a finished merge group as `mergeCloseWords` does: through
`mergeWordGroup` when it has more than one word, as-is otherwise. -/
def flushMergeGroup (g : List EnrichedWord) : List EnrichedWord :=
  if g.length > 1 then [mergeWordGroup g] else g

/-- The scan loop of `mergeCloseWords`: `cur` is the open merge group
(never empty), `lastWord` its final word. -/
def mergeCloseGo (cur : List EnrichedWord) (lastWord : EnrichedWord) :
    List EnrichedWord → List EnrichedWord
  | [] => flushMergeGroup cur
  | w :: rest =>
    let gap := w.box.x0 - lastWord.box.x1
    if gap < 2.0 ∧ ¬ (isSeparatePunctuation w = true) then
      mergeCloseGo (cur ++ [w]) w rest
    else flushMergeGroup cur ++ mergeCloseGo [w] w rest

/-- Embeds `mergeCloseWords` from the paragraph-recognition source. -/
def mergeCloseWords (words : List EnrichedWord) : List EnrichedWord :=
  match words with
  | [] => words
  | [w] => [w]
  | w :: rest => mergeCloseGo [w] w rest

/-- Embeds `Segment` from the segment-table source. -/
structure Segment where
  words : List EnrichedWord
  box : Rect
deriving DecidableEq, Repr

/-- Embeds `LineType` from the segment-table source (a closed sum). -/
inductive LineType where
  | textLine
  | tableLine
  | unknownLine
deriving DecidableEq, Repr

/-- Embeds `TaggedLine` from the segment-table source. -/
structure TaggedLine where
  line : Line
  segments : List Segment
  type : LineType
deriving DecidableEq, Repr

instance : Inhabited Line := ⟨{ words := [], box := ⟨0, 0, 0, 0⟩, baseline := 0 }⟩

instance : Inhabited TaggedLine :=
  ⟨{ line := default, segments := [], type := .unknownLine }⟩

/-- Embeds `AdaptiveThresholds` from the segment-table source. -/
structure AdaptiveThresholds where
  horizontalThreshold : ℚ
  verticalThreshold : ℚ
deriving DecidableEq, Repr

/-- The fields of the Go `Page` that the segment-based detector reads. -/
structure Page where
  number : ℕ
  width : ℚ
  height : ℚ
  paragraphs : List Paragraph
deriving DecidableEq, Repr

/-- The closest-pair search shared by the two agglomerative-clustering
loops of the segment-table source: scan ordered index pairs `(i, j)`,
`i < j`, keeping the strictly smallest admissible distance; `(-1, -1)`
with `math.MaxFloat64` when no admissible pair improves on the sentinel
(exactly the Go `minDist`/`minI`/`minJ` loop). -/
def closestPairFiltered (ok : α → α → Bool) (dist : α → α → ℚ)
    (clusters : List α) : ℚ × ℤ × ℤ :=
  clusters.enum.foldl (fun acc ia =>
    clusters.enum.foldl (fun acc2 jb =>
      if ia.1 < jb.1 ∧ ok ia.2 jb.2 = true then
        let d := dist ia.2 jb.2
        if d < acc2.1 then (d, ((ia.1 : ℤ), (jb.1 : ℤ))) else acc2
      else acc2) acc) (maxFloat64, (-1, -1))

/-- Rebuild the cluster list after a merge as the Go loops do: the
merged cluster replaces position `minI`, position `minJ` is dropped,
everything else keeps its order. -/
def removeMerged (clusters : List α) (minI minJ : ℕ) (merged : α) : List α :=
  clusters.enum.filterMap (fun ic =>
    if ic.1 = minI then some merged
    else if ic.1 = minJ then none
    else some ic.2)

/-- The agglomerative clustering loop shared by `buildSegmentsFromLine`
and `buildBlocksFromTableArea`: repeatedly merge the closest admissible
pair until the minimum distance exceeds the threshold or no admissible
pair exists.  The Go loop is unbounded; each iteration shrinks the
cluster list by one, so fuel equal to the initial length is enough and
the fuel-out branch is unreachable when called that way. -/
def agglomerate [Inhabited α] (ok : α → α → Bool) (dist : α → α → ℚ)
    (mergeFn : α → α → α) (threshold : ℚ) : ℕ → List α → List α
  | 0, clusters => clusters
  | fuel + 1, clusters =>
    let best := closestPairFiltered ok dist clusters
    if best.1 > threshold ∨ best.2.1 = -1 then clusters
    else
      let i := best.2.1.toNat
      let j := best.2.2.toNat
      let merged := mergeFn (clusters.getD i default) (clusters.getD j default)
      agglomerate ok dist mergeFn threshold fuel (removeMerged clusters i j merged)

instance : Inhabited Segment := ⟨{ words := [], box := ⟨0, 0, 0, 0⟩ }⟩

/-- The merged segment construction of `buildSegmentsFromLine`. -/
def segMerge (a b : Segment) : Segment :=
  { words := a.words ++ b.words, box := mergeRects a.box b.box }

/-- Embeds `buildSegmentsFromLine` from the segment-table source:
single-linkage clustering of a line's words by horizontal distance. -/
def buildSegmentsFromLine (line : Line) (hT : ℚ) : List Segment :=
  match line.words with
  | [] => []
  | [w] => [{ words := [w], box := w.box }]
  | ws =>
    let clusters := ws.map (fun w => ({ words := [w], box := w.box } : Segment))
    agglomerate (fun _ _ => true) (fun a b => horizontalDistance a.box b.box)
      segMerge hT clusters.length clusters

/-- Embeds `tagLine` from the segment-table source. -/
def tagLine (segments : List Segment) (pageWidth : ℚ) : LineType :=
  match segments with
  | [] => .unknownLine
  | [seg] => if seg.box.width > pageWidth * 0.5 then .textLine else .unknownLine
  | _ => .tableLine

/-- Embeds `buildTaggedLines` from the segment-table source. -/
def buildTaggedLines (lines : List Line) (hT : ℚ) (pageWidth : ℚ) :
    List TaggedLine :=
  lines.map (fun line =>
    let segments := buildSegmentsFromLine line hT
    { line := line, segments := segments, type := tagLine segments pageWidth })

/-- Embeds `TableArea` from the segment-table source. -/
structure TableArea where
  lines : List TaggedLine
  box : Rect
deriving DecidableEq, Repr

/-- Embeds `createTableArea` from the segment-table source. -/
def createTableArea (lines : List TaggedLine) : TableArea :=
  match lines with
  | [] => { lines := [], box := ⟨0, 0, 0, 0⟩ }
  | l0 :: rest =>
    { lines := lines
      box := rest.foldl (fun b tl => mergeRects b tl.line.box) l0.line.box }

/-- The scan loop of `buildTableAreas`: grow the current run on a
table/unknown line, flush it on a text line and at the end of input. -/
def buildTableAreasGo (currentArea : List TaggedLine) :
    List TaggedLine → List TableArea
  | [] => if currentArea.length > 0 then [createTableArea currentArea] else []
  | tl :: rest =>
    if tl.type = .tableLine ∨ tl.type = .unknownLine then
      buildTableAreasGo (currentArea ++ [tl]) rest
    else if currentArea.length > 0 then
      createTableArea currentArea :: buildTableAreasGo [] rest
    else buildTableAreasGo [] rest

/-- Embeds `buildTableAreas` from the segment-table source. -/
def buildTableAreas (taggedLines : List TaggedLine) : List TableArea :=
  match taggedLines with
  | [] => []
  | _ => buildTableAreasGo [] taggedLines

/-- Embeds `Block` from the segment-table source. -/
structure Block where
  segments : List Segment
  box : Rect
  lineIndices : List ℕ
deriving DecidableEq, Repr

instance : Inhabited Block := ⟨{ segments := [], box := ⟨0, 0, 0, 0⟩, lineIndices := [] }⟩

/-- Ascending `less` on naturals (for `sort.Ints`). -/
def natLt (a b : ℕ) : Bool := decide (a < b)

/-- The line-index normalisation of the block merge: Go collects the
indices into a set (a map) and sorts them, producing the ascending list
of distinct indices whatever the map iteration order was. -/
def sortedDistinct (xs : List ℕ) : List ℕ := sortBy natLt (distinctFirst xs)

/-- The merged block construction of `buildBlocksFromTableArea`. -/
def blockMerge (a b : Block) : Block :=
  { segments := a.segments ++ b.segments
    box := mergeRects a.box b.box
    lineIndices := sortedDistinct (a.lineIndices ++ b.lineIndices) }

/-- Embeds `buildBlocksFromTableArea` from the segment-table source:
single-linkage vertical clustering of all segments of a table area,
merging only pairs whose vertical overlap ratio exceeds 0.3. -/
def buildBlocksFromTableArea (area : TableArea) (vT : ℚ) : List Block :=
  match area.lines with
  | [] => []
  | _ =>
    let allSegments : List (Segment × ℕ) :=
      area.lines.enum.flatMap (fun litl =>
        litl.2.segments.map (fun s => (s, litl.1)))
    match allSegments with
    | [] => []
    | _ =>
      let clusters := allSegments.map (fun p =>
        ({ segments := [p.1], box := p.1.box, lineIndices := [p.2] } : Block))
      agglomerate (fun a b => decide (verticalOverlapRatio a.box b.box > 0.3))
        (fun a b => verticalDistance a.box b.box)
        blockMerge vT clusters.length clusters

/-- Embeds `SegmentTableRow` from the segment-table source. -/
structure SegmentTableRow where
  lines : List TaggedLine
  segments : List Segment
  box : Rect
deriving DecidableEq, Repr

/-- Processing of one block inside `buildRowsFromBlocks`: the
accumulator carries the assigned line indices and the rows emitted so
far (in emission order). -/
def rowsFromBlocksStep (areaLines : List TaggedLine)
    (acc : List ℕ × List SegmentTableRow) (block : Block) :
    List ℕ × List SegmentTableRow :=
  let assigned := acc.1
  let tableLineCount :=
    (block.lineIndices.filter
      (fun idx => (areaLines.getD idx default).type = .tableLine)).length
  if block.lineIndices.length > 1 ∧ tableLineCount = 1 then
    let newIdx := block.lineIndices.filter (fun idx => ¬ idx ∈ assigned)
    let rowLines := newIdx.map (fun idx => areaLines.getD idx default)
    if rowLines.length > 0 then
      (assigned ++ newIdx,
        acc.2 ++ [{ lines := rowLines, segments := block.segments,
                    box := block.box }])
    else (assigned, acc.2)
  else
    block.lineIndices.foldl (fun a idx =>
      if idx ∈ a.1 then a
      else
        let tl := areaLines.getD idx default
        (a.1 ++ [idx],
          a.2 ++ [{ lines := [tl], segments := tl.segments,
                    box := tl.line.box }])) acc

/-- The row `less` comparator (`rows[i].Box.Y0 < rows[j].Box.Y0`). -/
def rowLt (a b : SegmentTableRow) : Bool := decide (a.box.y0 < b.box.y0)

/-- Embeds `buildRowsFromBlocks` from the segment-table source. -/
def buildRowsFromBlocks (area : TableArea) (blocks : List Block) :
    List SegmentTableRow :=
  match area.lines with
  | [] => []
  | _ =>
    let afterBlocks := blocks.foldl (rowsFromBlocksStep area.lines) ([], [])
    let withRest := area.lines.enum.foldl (fun a itl =>
      if itl.1 ∈ a.1 then a
      else
        (a.1 ++ [itl.1],
          a.2 ++ [{ lines := [itl.2], segments := itl.2.segments,
                    box := itl.2.line.box }])) afterBlocks
    sortBy rowLt withRest.2

/-- Embeds `TableColumn` from the segment-table source. -/
structure TableColumn where
  segments : List Segment
  box : Rect
deriving DecidableEq, Repr

/-- Assignment of one segment inside `buildColumnsFromRows`: the Go
code collects pointers to every column whose box vertically overlaps
the segment by more than 0.3 and mutates each; with more than one it
duplicates the segment into each, with exactly one it extends it, with
none it opens a new column. -/
def assignSegmentToColumns (columns : List TableColumn) (seg : Segment) :
    List TableColumn :=
  let overlappingIdx :=
    (columns.enum.filter (fun ic =>
      decide (verticalOverlapRatio seg.box ic.2.box > 0.3))).map (fun ic => ic.1)
  if overlappingIdx.length > 1 then
    columns.enum.map (fun ic =>
      if ic.1 ∈ overlappingIdx then
        { segments := ic.2.segments ++ [seg], box := mergeRects ic.2.box seg.box }
      else ic.2)
  else if overlappingIdx.length = 1 then
    columns.enum.map (fun ic =>
      if ic.1 ∈ overlappingIdx then
        { segments := ic.2.segments ++ [seg], box := mergeRects ic.2.box seg.box }
      else ic.2)
  else columns ++ [{ segments := [seg], box := seg.box }]

instance : Inhabited TableColumn := ⟨{ segments := [], box := ⟨0, 0, 0, 0⟩ }⟩

/-- Embeds `mergeSingleSegmentColumns` from the segment-table source.  The
`toMerge` pairs are built in slice order (single-segment indices
ascending, first close multi-segment column wins); Go applies them by
iterating a map in unspecified order, modelled here in ascending order
of the single-segment index (the merges touch pairwise distinct source
columns, so the resulting boxes do not depend on that order). -/
def mergeSingleSegmentColumns (columns : List TableColumn) (hT : ℚ) :
    List TableColumn :=
  if columns.length ≤ 1 then columns
  else
    let singleSeg := (columns.enum.filter
      (fun ic => ic.2.segments.length = 1)).map (fun ic => ic.1)
    let multiSeg := (columns.enum.filter
      (fun ic => ¬ ic.2.segments.length = 1)).map (fun ic => ic.1)
    let toMerge : List (ℕ × ℕ) := singleSeg.filterMap (fun s =>
      (multiSeg.find? (fun m =>
        decide (mathAbs ((columns.getD s default).box.centerX -
          (columns.getD m default).box.centerX) < hT))).map (fun m => (s, m)))
    let columns2 := toMerge.foldl (fun cols sm =>
      cols.enum.map (fun ic =>
        if ic.1 = sm.2 then
          { segments := ic.2.segments ++ (cols.getD sm.1 default).segments
            box := mergeRects ic.2.box (cols.getD sm.1 default).box }
        else ic.2)) columns
    columns2.enum.filterMap (fun ic =>
      if toMerge.any (fun sm => sm.1 = ic.1) then none else some ic.2)

/-- The column `less` comparator (`X0 <`). -/
def colXLt (a b : TableColumn) : Bool := decide (a.box.x0 < b.box.x0)

/-- The boundary-adjustment pass of `makeColumnsContiguous`: each
adjacent pair's shared boundary becomes the midpoint of the right edge
of the left column and the left edge of the right column. -/
def makeContiguousGo (c : TableColumn) : List TableColumn → List TableColumn
  | [] => [c]
  | c2 :: rest =>
    let midpoint := (c.box.x1 + c2.box.x0) / 2
    { c with box := { c.box with x1 := midpoint } } ::
      makeContiguousGo { c2 with box := { c2.box with x0 := midpoint } } rest

/-- Embeds `makeColumnsContiguous` from the segment-table source. -/
def makeColumnsContiguous (columns : List TableColumn) : List TableColumn :=
  if columns.length ≤ 1 then columns
  else
    match sortBy colXLt columns with
    | [] => []
    | c :: rest => makeContiguousGo c rest

/-- Embeds `buildColumnsFromRows` from the segment-table source. -/
def buildColumnsFromRows (rows : List SegmentTableRow) (hT : ℚ) :
    List TableColumn :=
  match rows with
  | [] => []
  | _ =>
    let allSegments := rows.flatMap (fun row => row.segments)
    match allSegments with
    | [] => []
    | _ =>
      let columns := allSegments.foldl assignSegmentToColumns []
      let merged := mergeSingleSegmentColumns columns hT
      makeColumnsContiguous (sortBy colXLt merged)

/-- Embeds `SegmentTableCell` from the segment-table source. -/
structure SegmentTableCell where
  content : List Char
  row : ℕ
  column : ℕ
  box : Rect
deriving DecidableEq, Repr

/-- Embeds `wordInBox` from the segment-table source. -/
def wordInBox (word : EnrichedWord) (box : Rect) : Bool :=
  decide (word.box.centerX ≥ box.x0 ∧ word.box.centerX ≤ box.x1 ∧
    word.box.centerY ≥ box.y0 ∧ word.box.centerY ≤ box.y1)

/-- The in-cell word comparator of `buildCellsFromRowsAndColumns`:
same visual line (`|ΔY0| < 3`) sorts by x, otherwise by y. -/
def cellWordLt (a b : EnrichedWord) : Bool :=
  if mathAbs (a.box.y0 - b.box.y0) < 3 then decide (a.box.x0 < b.box.x0)
  else decide (a.box.y0 < b.box.y0)

/-- The content concatenation of `buildCellsFromRowsAndColumns`: a
space between words on the same visual line, a newline otherwise. -/
def cellContent : List EnrichedWord → List Char
  | [] => []
  | [w] => w.text
  | w :: w2 :: rest =>
    w.text ++ (if mathAbs (w.box.y0 - w2.box.y0) < 3 then [' '] else ['\n']) ++
      cellContent (w2 :: rest)

/-- Embeds `buildCellsFromRowsAndColumns` from the segment-table source. -/
def buildCellsFromRowsAndColumns (rows : List SegmentTableRow)
    (columns : List TableColumn) : List (List SegmentTableCell) :=
  match rows, columns with
  | [], _ => []
  | _, [] => []
  | _, _ =>
    rows.enum.map (fun rrow =>
      columns.enum.map (fun ccol =>
        let cellBox : Rect :=
          { x0 := ccol.2.box.x0, y0 := rrow.2.box.y0,
            x1 := ccol.2.box.x1, y1 := rrow.2.box.y1 }
        let cellWords := (rrow.2.segments.flatMap (fun seg => seg.words)).filter
          (fun word => wordInBox word cellBox)
        { content := cellContent (sortBy cellWordLt cellWords),
          row := rrow.1, column := ccol.1, box := cellBox }))

/-- Embeds `convertCellGridToTable` from the segment-table source. -/
def convertCellGridToTable (grid : List (List SegmentTableCell)) (box : Rect) :
    Table :=
  let bbox : CellBBox := { x0 := box.x0, top := box.y0, x1 := box.x1, bottom := box.y1 }
  let tableRows := grid.map (fun r =>
    ({ cells := r.map (fun c =>
        ({ bbox := { x0 := c.box.x0, top := c.box.y0,
                     x1 := c.box.x1, bottom := c.box.y1 },
           content := c.content, words := [] } : TableCell))
       bbox := bbox } : TableRow))
  { bbox := bbox, rows := tableRows, cells := [],
    numRows := grid.length, numCols := (grid.headD []).length }

/-- Embeds `DetectTablesSegmentBased` from the segment-table source.  As in
the source, no size/fill validation is applied to the produced tables:
every table area whose cell grid is non-empty yields a table. -/
def DetectTablesSegmentBased (page : Page) (thresholds : AdaptiveThresholds) :
    List Table :=
  if page.paragraphs.length = 0 then []
  else
    let words := page.paragraphs.flatMap (fun para =>
      para.lines.flatMap (fun line => line.words))
    if words.length = 0 then []
    else
      let lines := groupWordsIntoLinesBaseline words
      let taggedLines := buildTaggedLines lines thresholds.horizontalThreshold page.width
      let tableAreas := buildTableAreas taggedLines
      tableAreas.flatMap (fun area =>
        let blocks := buildBlocksFromTableArea area thresholds.verticalThreshold
        let rows := buildRowsFromBlocks area blocks
        let columns := buildColumnsFromRows rows thresholds.horizontalThreshold
        let cellGrid := buildCellsFromRowsAndColumns rows columns
        if cellGrid.length > 0 ∧ (cellGrid.headD []).length > 0 then
          [convertCellGridToTable cellGrid area.box]
        else [])

/-- The spec's wording of CJK de-duplication ("scan adjacent identical
CJK pairs; delete the second occurrence"), written independently of the
code as the specification side of the refinement statement for the
de-duplication claim. -/
def collapseAdjacentCJK : List Char → List Char
  | [] => []
  | [c] => [c]
  | c1 :: c2 :: rest =>
    if c2 = c1 ∧ isCJK c2 then collapseAdjacentCJK (c1 :: rest)
    else c1 :: collapseAdjacentCJK (c2 :: rest)
termination_by l => l.length

/-! Concrete inputs used by counterexamples and witnesses. -/

/-- A content-free table with the given bounding box. -/
def tableWithBox (b : CellBBox) : Table :=
  { bbox := b, rows := [], cells := [], numRows := 0, numCols := 0 }

/-- Table at the origin, 10 × 10. -/
def tTabA : Table := tableWithBox ⟨0, 0, 10, 10⟩

/-- Table overlapping `tTabA` entirely (its own area is smaller). -/
def tTabB : Table := tableWithBox ⟨0, 0, 10, 9⟩

/-- Table far away from `tTabA`. -/
def tTabC : Table := tableWithBox ⟨100, 100, 110, 110⟩

/-- A glyph with local angle −1 rad. -/
def charNegAngle : EnrichedChar :=
  { text := 'x', box := ⟨0, 0, 1, 1⟩, fontSize := 10, fontWeight := 400,
    fontName := [], fontFlags := 0, fillColor := ⟨0, 0, 0, 255⟩,
    angle := -1, isHyphen := false }

/-- A glyph with local angle 1 rad. -/
def charPosAngle : EnrichedChar :=
  { charNegAngle with angle := 1 }

/-- The spec's Scenario 6 word: text 微微软软, box width `wdt`, font
size 12. -/
def cjkScenarioWord (wdt : ℚ) : EnrichedWord :=
  { text := ['微', '微', '软', '软'], box := ⟨0, 0, wdt, 12⟩, fontSize := 12,
    fontWeight := 400, fontName := [], fontFlags := 0,
    fillColor := ⟨0, 0, 0, 255⟩, isBold := false, isItalic := false,
    isMonospace := false, baseline := 0, xHeight := 0, rotation := 0 }

/-- A plain paragraph with the given box. -/
def plainParagraph (x0 y0 x1 y1 : ℚ) : Paragraph :=
  { lines := [], box := ⟨x0, y0, x1, y1⟩, alignment := .left,
    isHeading := false, headingLevel := 0, isList := false, isCode := false,
    indent := 0 }

/-- A column covering the x-range `[x0, x1)`. -/
def plainColumn (x0 x1 : ℚ) : Column :=
  { box := ⟨x0, 0, x1, 100⟩, words := [], paragraphs := [], index := 0 }

/-- Reading-order witness paragraph (lower on the page). -/
def rdoPara1 : Paragraph := plainParagraph 10 30 50 40

/-- Reading-order witness paragraph (higher on the page). -/
def rdoPara2 : Paragraph := plainParagraph 10 10 50 20

/-- Reading-order witness single column. -/
def rdoColFull : Column := plainColumn 0 600

/-- Reading-order witness left column. -/
def rdoColL : Column := plainColumn 0 300

/-- Reading-order witness right column. -/
def rdoColR : Column := plainColumn 300 600

/-- Column-filter witness paragraph whose centre (50) lies in the first
column. -/
def colfParaIn : Paragraph := plainParagraph 10 10 90 20

/-- Column-filter witness paragraph whose centre (200) is exactly the
right edge of the last column, hence in no column. -/
def colfParaOut : Paragraph := plainParagraph 150 10 250 20

/-- Column-filter witness left column `[0, 100)`. -/
def colfColA : Column := plainColumn 0 100

/-- Column-filter witness right column `[100, 200)`. -/
def colfColB : Column := plainColumn 100 200

/-- The single word of the unvalidated-table failing page. -/
def segWordC1 : EnrichedWord :=
  { text := ['A'], box := ⟨10, 10, 20, 20⟩, fontSize := 12, fontWeight := 400,
    fontName := [], fontFlags := 0, fillColor := ⟨0, 0, 0, 255⟩,
    isBold := false, isItalic := false, isMonospace := false,
    baseline := 18, xHeight := 6, rotation := 0 }

/-- The single line of the unvalidated-table failing page. -/
def segLineC1 : Line :=
  { words := [segWordC1], box := ⟨10, 10, 20, 20⟩, baseline := 18 }

/-- The single paragraph of the unvalidated-table failing page. -/
def segParaC1 : Paragraph :=
  { lines := [segLineC1], box := ⟨10, 10, 20, 20⟩, alignment := .left,
    isHeading := false, headingLevel := 0, isList := false, isCode := false,
    indent := 10 }

/-- The unvalidated-table failing page: one narrow word on a 600 pt
wide page. -/
def segPageC1 : Page :=
  { number := 1, width := 600, height := 800, paragraphs := [segParaC1] }

/-- The fixed fallback thresholds (hT 20, vT 5). -/
def segThrC1 : AdaptiveThresholds :=
  { horizontalThreshold := 20, verticalThreshold := 5 }

/-! Helper lemmas. -/

theorem mathMin_comm (a b : ℚ) : mathMin a b = mathMin b a := by
  unfold mathMin; split_ifs <;> linarith

theorem mathMax_comm (a b : ℚ) : mathMax a b = mathMax b a := by
  unfold mathMax; split_ifs <;> linarith

theorem checkHorizontalOverlap_fst_symm (a b : Rect) :
    (checkHorizontalOverlap a b).1 = (checkHorizontalOverlap b a).1 := by
  unfold checkHorizontalOverlap
  split_ifs <;> first | rfl | tauto

theorem horizontalOverlapRatio_closed (a b : Rect) :
    horizontalOverlapRatio a b =
      if (checkHorizontalOverlap a b).1 = true ∧ ¬ mathMin a.height b.height = 0 then
        (mathMin a.y1 b.y1 - mathMax a.y0 b.y0) / mathMin a.height b.height
      else 0 := by
  by_cases h1 : b.y0 ≤ a.y0 ∧ a.y0 ≤ b.y1 ∧ b.y1 ≤ a.y1
  case pos =>
    have hc : checkHorizontalOverlap a b = (true, 1) := by
      unfold checkHorizontalOverlap; rw [if_pos h1]
    by_cases hd : mathMin a.height b.height = 0
    · simp [horizontalOverlapRatio, hc, hd]
    · have hmin : mathMin a.y1 b.y1 = b.y1 := by unfold mathMin; split_ifs <;> linarith
      have hmax : mathMax a.y0 b.y0 = a.y0 := by unfold mathMax; split_ifs <;> linarith
      simp [horizontalOverlapRatio, hc, hd, hmin, hmax]
  case neg =>
  by_cases h2 : a.y0 ≤ b.y0 ∧ b.y0 ≤ a.y1 ∧ a.y1 ≤ b.y1
  case pos =>
    have hc : checkHorizontalOverlap a b = (true, 2) := by
      unfold checkHorizontalOverlap; rw [if_neg h1, if_pos h2]
    by_cases hd : mathMin a.height b.height = 0
    · simp [horizontalOverlapRatio, hc, hd]
    · have hmin : mathMin a.y1 b.y1 = a.y1 := by unfold mathMin; split_ifs <;> linarith
      have hmax : mathMax a.y0 b.y0 = b.y0 := by unfold mathMax; split_ifs <;> linarith
      simp [horizontalOverlapRatio, hc, hd, hmin, hmax]
  case neg =>
  by_cases h3 : a.y0 ≤ b.y0 ∧ b.y0 ≤ b.y1 ∧ b.y1 ≤ a.y1
  case pos =>
    have hc : checkHorizontalOverlap a b = (true, 3) := by
      unfold checkHorizontalOverlap; rw [if_neg h1, if_neg h2, if_pos h3]
    by_cases hd : mathMin a.height b.height = 0
    · simp [horizontalOverlapRatio, hc, hd]
    · have hmin : mathMin a.y1 b.y1 = b.y1 := by unfold mathMin; split_ifs <;> linarith
      have hmax : mathMax a.y0 b.y0 = b.y0 := by unfold mathMax; split_ifs <;> linarith
      simp [horizontalOverlapRatio, hc, hd, hmin, hmax]
  case neg =>
  by_cases h4 : b.y0 ≤ a.y0 ∧ a.y0 ≤ a.y1 ∧ a.y1 ≤ b.y1
  case pos =>
    have hc : checkHorizontalOverlap a b = (true, 4) := by
      unfold checkHorizontalOverlap; rw [if_neg h1, if_neg h2, if_neg h3, if_pos h4]
    by_cases hd : mathMin a.height b.height = 0
    · simp [horizontalOverlapRatio, hc, hd]
    · have hmin : mathMin a.y1 b.y1 = a.y1 := by unfold mathMin; split_ifs <;> linarith
      have hmax : mathMax a.y0 b.y0 = a.y0 := by unfold mathMax; split_ifs <;> linarith
      simp [horizontalOverlapRatio, hc, hd, hmin, hmax]
  case neg =>
    have hc : checkHorizontalOverlap a b = (false, 0) := by
      unfold checkHorizontalOverlap; rw [if_neg h1, if_neg h2, if_neg h3, if_neg h4]
    simp [horizontalOverlapRatio, hc]

/-- Claim C7: the horizontal overlap ratio is symmetric: for all
rectangles `a` and `b`,
`horizontalOverlapRatio a b = horizontalOverlapRatio b a`. -/
theorem horizontalOverlapRatio_symm (a b : Rect) :
    horizontalOverlapRatio a b = horizontalOverlapRatio b a := by
  rw [horizontalOverlapRatio_closed a b, horizontalOverlapRatio_closed b a,
    checkHorizontalOverlap_fst_symm a b, mathMin_comm a.height b.height,
    mathMin_comm a.y1 b.y1, mathMax_comm a.y0 b.y0]

/-- Counterexample to claim C2 as stated: the two tables overlap by
more than 0.7, yet `deduplicateTables` keeps the LATER table, not the
first. -/
theorem deduplicateTables_keeps_first_counterexample :
    0.7 < calculateTableOverlap tTabA tTabB ∧
    deduplicateTables [tTabA, tTabB] = [tTabB] ∧ tTabB ≠ tTabA := by decide

/-- Claim C2 (amended): for a pair of tables whose overlap ratio
(intersection area over the smaller area) exceeds 0.7,
`deduplicateTables` discards the earlier-indexed table and keeps the
later one; pairs at or below 0.7 are both retained. -/
theorem deduplicateTables_pair_spec (t1 t2 : Table) :
    (0.7 < calculateTableOverlap t1 t2 → deduplicateTables [t1, t2] = [t2]) ∧
    (calculateTableOverlap t1 t2 ≤ 0.7 → deduplicateTables [t1, t2] = [t1, t2]) := by
  constructor
  · intro h
    have hb : decide (calculateTableOverlap t1 t2 > 0.7) = true := decide_eq_true h
    simp [deduplicateTables, dedupTablesLoop, hb]
  · intro h
    have hb : decide (calculateTableOverlap t1 t2 > 0.7) = false :=
      decide_eq_false (not_lt.mpr h)
    simp [deduplicateTables, dedupTablesLoop, hb]

/-- Witness for the amended claim C2 at concrete tables. -/
theorem deduplicateTables_pair_spec_witness :
    deduplicateTables [tTabA, tTabB] = [tTabB] ∧
    deduplicateTables [tTabA, tTabC] = [tTabA, tTabC] :=
  ⟨(deduplicateTables_pair_spec tTabA tTabB).1 (by decide),
   (deduplicateTables_pair_spec tTabA tTabC).2 (by decide)⟩

/-- Counterexample to claim C3 as stated: a single glyph with local
angle −1 rad produces a word whose rotation is negative, outside
`[0, 360)`. -/
theorem aggregateWord_rotation_counterexample :
    (aggregateWord [charNegAngle] ⟨0, 0, 1, 1⟩).rotation < 0 := by decide

/-- Claim C3 (amended): `aggregateWord` sets the rotation to the mean
glyph angle times `180 / 3.14159` with NO normalisation; the rotation
lies in `[0, 360)` only when that mean lies in `[0, 2 × 3.14159)`. -/
theorem aggregateWord_rotation_spec (chars : List EnrichedChar) (box : Rect)
    (h : chars ≠ []) :
    (aggregateWord chars box).rotation =
      (chars.foldl (fun s c => s + c.angle) 0) / (chars.length : ℚ) * 180 / 3.14159 ∧
    (0 ≤ (chars.foldl (fun s c => s + c.angle) 0) / (chars.length : ℚ) →
     (chars.foldl (fun s c => s + c.angle) 0) / (chars.length : ℚ) < 2 * 3.14159 →
     0 ≤ (aggregateWord chars box).rotation ∧
       (aggregateWord chars box).rotation < 360) := by
  match chars with
  | [] => exact absurd rfl h
  | c0 :: rest =>
    have hrot : (aggregateWord (c0 :: rest) box).rotation =
        ((c0 :: rest).foldl (fun s c => s + c.angle) 0) /
          (((c0 :: rest).length : ℚ)) * 180 / 3.14159 := rfl
    refine ⟨hrot, fun h0 hlt => ?_⟩
    rw [hrot]
    constructor
    · apply div_nonneg
      · exact mul_nonneg h0 (by norm_num)
      · norm_num
    · rw [div_lt_iff (by norm_num : (0 : ℚ) < 3.14159)]
      linarith

/-- Witness for the amended claim C3 at a glyph with angle 1 rad. -/
theorem aggregateWord_rotation_spec_witness :
    0 ≤ (aggregateWord [charPosAngle] ⟨0, 0, 1, 1⟩).rotation ∧
    (aggregateWord [charPosAngle] ⟨0, 0, 1, 1⟩).rotation < 360 :=
  (aggregateWord_rotation_spec [charPosAngle] ⟨0, 0, 1, 1⟩ (by decide)).2
    (by decide) (by decide)

/-- Counterexample to claim C5 as stated: at baseline difference 5 and
x-height 10, the spec's 0.6/5.0 predicate holds (and is what
rotation.go computes), but the line-grouping path
`groupWordsIntoLinesBaseline` uses 0.4·x-height with a 3.0 fallback and
rejects the word, so not every grouping path matches the 0.6/5.0
formula. -/
theorem baselineClose_paths_counterexample :
    mathAbs ((5 : ℚ) - 0) < 0.6 * 10 ∧
    baselineClose06 5 0 10 = true ∧
    baselineClose04 5 0 10 = false := by decide

/-- Claim C5 (amended): the rotation.go horizontal grouping path tests
baseline closeness exactly by `|Δ| < 0.6·xHeight` with fallback 5.0 at
zero x-height, while the `groupWordsIntoLinesBaseline` path tests
exactly `|Δ| < 0.4·xHeight` with fallback 3.0. -/
theorem baselineClose_predicates_spec (wb lb xh : ℚ) :
    (baselineClose06 wb lb xh = true ↔
      mathAbs (wb - lb) < (if xh = 0 then 5.0 else 0.6 * xh)) ∧
    (baselineClose04 wb lb xh = true ↔
      mathAbs (wb - lb) < (if xh = 0 then 3.0 else 0.4 * xh)) := by
  have key6 : ((0.6 : ℚ) * xh = 0) ↔ xh = 0 := by
    constructor
    · intro h0
      rcases mul_eq_zero.mp h0 with h | h
      · norm_num at h
      · exact h
    · intro h0; rw [h0]; ring
  have key4 : ((0.4 : ℚ) * xh = 0) ↔ xh = 0 := by
    constructor
    · intro h0
      rcases mul_eq_zero.mp h0 with h | h
      · norm_num at h
      · exact h
    · intro h0; rw [h0]; ring
  constructor
  · simp only [baselineClose06, baselineThreshold06, key6, decide_eq_true_eq]
  · simp only [baselineClose04, baselineThreshold04, key4, decide_eq_true_eq]

/-- Scan with a false narrow-spacing condition keeps every rune. -/
theorem dedupCJKScan_false (prev : Char) (l : List Char) :
    dedupCJKScan prev false l = l := by
  induction l generalizing prev with
  | nil => rfl
  | cons c rest ih => simp [dedupCJKScan, ih]

/-- The code's scan with a true condition computes exactly the spec's
adjacent-identical-CJK collapse. -/
theorem collapseAdjacentCJK_eq_scan (l : List Char) :
    ∀ prev, collapseAdjacentCJK (prev :: l) = prev :: dedupCJKScan prev true l := by
  induction l with
  | nil => intro prev; simp [collapseAdjacentCJK, dedupCJKScan]
  | cons c rest ih =>
    intro prev
    by_cases h : c = prev ∧ isCJK c = true
    · have hck : isCJK prev = true := by rw [← h.1]; exact h.2
      have hstep : collapseAdjacentCJK (prev :: c :: rest) =
          collapseAdjacentCJK (prev :: rest) := by
        simp only [collapseAdjacentCJK, h.1, hck]
        simp
      have hscan : dedupCJKScan prev true (c :: rest) = dedupCJKScan c true rest := by
        simp only [dedupCJKScan, h.1, hck]
        simp
      rw [hstep, hscan, ih prev, h.1]
    · have hstep : collapseAdjacentCJK (prev :: c :: rest) =
          prev :: collapseAdjacentCJK (c :: rest) := by
        simp only [collapseAdjacentCJK]
        rw [if_neg h]
      have hscan : dedupCJKScan prev true (c :: rest) =
          c :: dedupCJKScan c true rest := by
        simp only [dedupCJKScan]
        rw [if_neg (by simpa using h)]
      rw [hstep, hscan, ih c]

/-- Claim C6: for a word containing CJK glyphs (and more than one
rune), `deduplicateCJKChars` deletes the second of adjacent identical
CJK glyphs exactly when the word's box width over its rune count is
less than `0.7 ×` its font size, and leaves the word unchanged
otherwise. -/
theorem deduplicateCJKChars_spec (w : EnrichedWord)
    (hcjk : containsCJK w.text = true) (hlen : 1 < w.text.length) :
    (w.box.width / (w.text.length : ℚ) < w.fontSize * 0.7 →
      deduplicateCJKChars [w] = [{ w with text := collapseAdjacentCJK w.text }]) ∧
    (¬ w.box.width / (w.text.length : ℚ) < w.fontSize * 0.7 →
      deduplicateCJKChars [w] = [w]) := by
  have hmap : deduplicateCJKChars [w] = [deduplicateCJKWord w] := rfl
  have hguards : deduplicateCJKWord w =
      (match w.text with
       | [] => w
       | r0 :: rest =>
         let cond := decide (w.box.width / (w.text.length : ℚ) < w.fontSize * 0.7)
         { w with text := r0 :: dedupCJKScan r0 cond rest }) := by
    unfold deduplicateCJKWord
    rw [if_neg (by simp [hcjk]), if_neg (by omega)]
  constructor
  · intro hc
    rw [hmap, hguards]
    match htext : w.text with
    | [] => simp [htext] at hlen
    | r0 :: rest =>
      have hcond :
          decide (w.box.width / (((r0 :: rest).length : ℕ) : ℚ) < w.fontSize * 0.7) = true := by
        rw [← htext]; exact decide_eq_true hc
      simp only [htext, hcond, collapseAdjacentCJK_eq_scan]
  · intro hc
    rw [hmap, hguards]
    match htext : w.text with
    | [] => simp [htext] at hlen
    | r0 :: rest =>
      have hcond :
          decide (w.box.width / (((r0 :: rest).length : ℕ) : ℚ) < w.fontSize * 0.7) = false := by
        rw [← htext]; exact decide_eq_false hc
      simp only [htext, hcond, dedupCJKScan_false]
      rw [← htext]

/-- Witness for claim C6: the spec's Scenario 6 inputs (width 24 is
collapsed to 微软, width 48 is unchanged). -/
theorem deduplicateCJKChars_spec_witness :
    deduplicateCJKChars [cjkScenarioWord 24] =
      [{ cjkScenarioWord 24 with
          text := collapseAdjacentCJK (cjkScenarioWord 24).text }] ∧
    collapseAdjacentCJK (cjkScenarioWord 24).text = ['微', '软'] ∧
    deduplicateCJKChars [cjkScenarioWord 48] = [cjkScenarioWord 48] :=
  ⟨(deduplicateCJKChars_spec (cjkScenarioWord 24) (by decide) (by decide)).1 (by decide),
   by
     rw [show (cjkScenarioWord 24).text = '微' :: ['微', '软', '软'] from rfl,
       collapseAdjacentCJK_eq_scan]
     decide,
   (deduplicateCJKChars_spec (cjkScenarioWord 48) (by decide) (by decide)).2 (by decide)⟩

/-- Claim C9: `ConvertPageRange` clamps the requested range before
validating it: a negative start becomes 0 (`max s 0`), a negative or
past-the-end end becomes the last page index, the "invalid page range"
error occurs exactly when the clamped start exceeds the clamped end,
and a call with both bounds negative (on a non-empty document) converts
the whole document. -/
theorem convertPageRange_clamps_before_validate (s e n : ℤ) :
    convertPageRangeValidate s e n =
      (if (if e < 0 ∨ n ≤ e then n - 1 else e) < max s 0 then none
       else some (max s 0, if e < 0 ∨ n ≤ e then n - 1 else e)) ∧
    (convertPageRangeValidate s e n = none ↔
      (if e < 0 ∨ n ≤ e then n - 1 else e) < max s 0) ∧
    (s < 0 → e < 0 → 0 < n →
      convertPageRangeValidate s e n = some (0, n - 1) ∧
      extractedPageIndices 0 (n - 1) =
        (List.range n.toNat).map (fun i => (i : ℤ))) := by
  have hs : (if s < 0 then (0 : ℤ) else s) = max s 0 := by
    split_ifs with h
    · exact (max_eq_right h.le).symm
    · exact (max_eq_left (not_lt.mp h)).symm
  have hA : convertPageRangeValidate s e n =
      (if (if e < 0 ∨ n ≤ e then n - 1 else e) < max s 0 then none
       else some (max s 0, if e < 0 ∨ n ≤ e then n - 1 else e)) := by
    simp only [convertPageRangeValidate, hs]
  refine ⟨hA, ?_, ?_⟩
  · rw [hA]
    by_cases hout : (if e < 0 ∨ n ≤ e then n - 1 else e) < max s 0
    · simp [hout]
    · simp [hout]
  · intro hsneg heneg hn
    constructor
    · rw [hA]
      have h1 : (if e < 0 ∨ n ≤ e then n - 1 else e) = n - 1 := if_pos (Or.inl heneg)
      have h2 : max s 0 = 0 := max_eq_right hsneg.le
      rw [h1, h2, if_neg (by omega)]
    · unfold extractedPageIndices
      have h3 : n - 1 + 1 - 0 = n := by ring
      rw [h3]
      simp

/-- Witness for claim C9: both bounds negative on a 10-page document
converts pages 0 through 9. -/
theorem convertPageRange_clamps_before_validate_witness :
    convertPageRangeValidate (-5) (-3) 10 = some (0, 10 - 1) ∧
    extractedPageIndices 0 (10 - 1) =
      (List.range (10 : ℤ).toNat).map (fun i => (i : ℤ)) :=
  (convertPageRange_clamps_before_validate (-5) (-3) 10).2.2
    (by decide) (by decide) (by decide)

/-- Claim C10: `mergeCloseWords` merges an adjacent pair exactly when
the horizontal gap is under 2.0 pt and the second word is not
single-character punctuation, and the merged word built by
`mergeWordGroup` concatenates the texts, takes the union box, leaves
`baseline` and `xHeight` (and `rotation`) at 0, and copies font size,
weight, name, flags, fill colour and the style booleans from the first
word only. -/
theorem mergeCloseWords_frame_spec (w1 w2 : EnrichedWord)
    (rest : List EnrichedWord) :
    ((mergeWordGroup (w1 :: w2 :: rest)).text =
        (w1 :: w2 :: rest).foldl (fun acc v => acc ++ v.text) [] ∧
     (mergeWordGroup (w1 :: w2 :: rest)).box =
        (w2 :: rest).foldl (fun b v => mergeRects b v.box) w1.box ∧
     (mergeWordGroup (w1 :: w2 :: rest)).baseline = 0 ∧
     (mergeWordGroup (w1 :: w2 :: rest)).xHeight = 0 ∧
     (mergeWordGroup (w1 :: w2 :: rest)).rotation = 0 ∧
     (mergeWordGroup (w1 :: w2 :: rest)).fontSize = w1.fontSize ∧
     (mergeWordGroup (w1 :: w2 :: rest)).fontWeight = w1.fontWeight ∧
     (mergeWordGroup (w1 :: w2 :: rest)).fontName = w1.fontName ∧
     (mergeWordGroup (w1 :: w2 :: rest)).fontFlags = w1.fontFlags ∧
     (mergeWordGroup (w1 :: w2 :: rest)).fillColor = w1.fillColor ∧
     (mergeWordGroup (w1 :: w2 :: rest)).isBold = w1.isBold ∧
     (mergeWordGroup (w1 :: w2 :: rest)).isItalic = w1.isItalic ∧
     (mergeWordGroup (w1 :: w2 :: rest)).isMonospace = w1.isMonospace) ∧
    (mergeCloseWords [w1, w2] =
      if w2.box.x0 - w1.box.x1 < 2.0 ∧ ¬ isSeparatePunctuation w2 = true then
        [mergeWordGroup [w1, w2]]
      else [w1, w2]) := by
  constructor
  · refine ⟨rfl, ?_, rfl, rfl, rfl, rfl, rfl, rfl, rfl, rfl, rfl, rfl, rfl⟩
    show (rest.foldl (fun b v =>
        ({ x0 := mathMin b.x0 v.box.x0, y0 := mathMin b.y0 v.box.y0,
           x1 := mathMax b.x1 v.box.x1, y1 := mathMax b.y1 v.box.y1 } : Rect))
        (({ x0 := mathMin w1.box.x0 w2.box.x0, y0 := mathMin w1.box.y0 w2.box.y0,
            x1 := mathMax w1.box.x1 w2.box.x1,
            y1 := mathMax w1.box.y1 w2.box.y1 } : Rect))) =
      (w2 :: rest).foldl (fun b v => mergeRects b v.box) w1.box
    rfl
  · by_cases hc : w2.box.x0 - w1.box.x1 < 2.0 ∧ ¬ isSeparatePunctuation w2 = true
    · simp [mergeCloseWords, mergeCloseGo, flushMergeGroup, hc]
    · simp [mergeCloseWords, mergeCloseGo, flushMergeGroup, hc]

/-- Claim C1 (code bug): the segment-based detector as present in the
repository applies none of the documented completed-table acceptance
conditions; on a page with a single narrow word it returns a 1 × 1
table, violating "rows ≥ 4" and "columns ≥ 2". -/
theorem detectTablesSegmentBased_unvalidated_table :
    (DetectTablesSegmentBased segPageC1 segThrC1).map
      (fun t => (t.numRows, t.numCols)) = [(1, 1)] := by decide

/-- Inserting preserves the multiset of elements. -/
theorem insertBy_perm (lt : α → α → Bool) (x : α) (l : List α) :
    (insertBy lt x l).Perm (x :: l) := by
  induction l with
  | nil => exact List.Perm.refl _
  | cons y ys ih =>
    unfold insertBy
    by_cases h : lt x y = true
    · rw [if_pos h]
    · rw [if_neg h]
      exact (ih.cons y).trans (List.Perm.swap x y ys)

/-- The modelled `sort.Slice` returns a permutation of its input. -/
theorem sortBy_perm (lt : α → α → Bool) (l : List α) : (sortBy lt l).Perm l := by
  induction l with
  | nil => exact List.Perm.refl _
  | cons x xs ih =>
    exact (insertBy_perm lt x (sortBy lt xs)).trans (ih.cons x)

/-- Inserting into a list sorted by `not ∘ flip lt` keeps it sorted,
given asymmetry of `lt` and transitivity of its negation. -/
theorem insertBy_pairwise (lt : α → α → Bool)
    (hasym : ∀ a b, lt a b = true → lt b a = false)
    (htrans : ∀ a b c, lt b a = false → lt c b = false → lt c a = false)
    (x : α) (l : List α) (hl : l.Pairwise (fun a b => lt b a = false)) :
    (insertBy lt x l).Pairwise (fun a b => lt b a = false) := by
  induction l with
  | nil => simp [insertBy]
  | cons y ys ih =>
    rcases List.pairwise_cons.mp hl with ⟨hy, hys⟩
    unfold insertBy
    by_cases h : lt x y = true
    · rw [if_pos h]
      refine List.pairwise_cons.mpr ⟨?_, hl⟩
      intro z hz
      rcases List.mem_cons.mp hz with hzy | hz2
      · rw [hzy]; exact hasym x y h
      · exact htrans x y z (hasym x y h) (hy z hz2)
    · rw [if_neg h]
      refine List.pairwise_cons.mpr ⟨?_, ih hys⟩
      intro z hz
      have hz3 : z = x ∨ z ∈ ys := by
        have hmem := (insertBy_perm lt x ys).mem_iff.mp hz
        simpa using hmem
      rcases hz3 with hzx | hz4
      · rw [hzx]; simpa using h
      · exact hy z hz4

/-- The modelled `sort.Slice` output is sorted (pairwise no later
element is `lt` an earlier one). -/
theorem sortBy_pairwise (lt : α → α → Bool)
    (hasym : ∀ a b, lt a b = true → lt b a = false)
    (htrans : ∀ a b c, lt b a = false → lt c b = false → lt c a = false)
    (l : List α) : (sortBy lt l).Pairwise (fun a b => lt b a = false) := by
  induction l with
  | nil => simp [sortBy]
  | cons x xs ih => exact insertBy_pairwise lt hasym htrans x _ ih

/-- Sorting paragraphs by the `y0 <` comparator yields non-decreasing
`y0`. -/
theorem sortBy_paragraphLt_sorted (l : List Paragraph) :
    (sortBy paragraphLt l).Pairwise (fun p q => p.box.y0 ≤ q.box.y0) := by
  have h := sortBy_pairwise paragraphLt
    (fun a b hab => by
      simp only [paragraphLt, decide_eq_true_eq] at hab
      simp only [paragraphLt, decide_eq_false_iff_not]
      linarith)
    (fun a b c hba hcb => by
      simp only [paragraphLt, decide_eq_false_iff_not] at hba hcb ⊢
      intro hca
      exact hba (by linarith [not_lt.mp hcb]))
    l
  exact h.imp (fun {a b} hab => by
    simp only [paragraphLt, decide_eq_false_iff_not] at hab
    exact not_lt.mp hab)

/-- Sorting columns by the `x0 <` comparator yields non-decreasing
`x0`. -/
theorem sortBy_columnLt_sorted (l : List Column) :
    (sortBy columnLt l).Pairwise (fun c d => c.box.x0 ≤ d.box.x0) := by
  have h := sortBy_pairwise columnLt
    (fun a b hab => by
      simp only [columnLt, decide_eq_true_eq] at hab
      simp only [columnLt, decide_eq_false_iff_not]
      linarith)
    (fun a b c hba hcb => by
      simp only [columnLt, decide_eq_false_iff_not] at hba hcb ⊢
      intro hca
      exact hba (by linarith [not_lt.mp hcb]))
    l
  exact h.imp (fun {a b} hab => by
    simp only [columnLt, decide_eq_false_iff_not] at hab
    exact not_lt.mp hab)

/-- Claim C4: `determineReadingOrder` orders paragraphs as the spec's
reading order: with at most one detected column the result is the
input sorted by `y0` ascending; with two or more columns the result is
the concatenation over the columns in ascending `x0` order of each
column's member paragraphs sorted by `y0` ascending. -/
theorem determineReadingOrder_spec (paras : List Paragraph) (cols : List Column) :
    (cols.length ≤ 1 →
      (determineReadingOrder paras cols).Perm paras ∧
      (determineReadingOrder paras cols).Pairwise (fun p q => p.box.y0 ≤ q.box.y0)) ∧
    (2 ≤ cols.length →
      determineReadingOrder paras cols =
        ((sortBy columnLt cols).map (fun col =>
          sortBy paragraphLt (paras.filter (fun p => paragraphInColumn col p)))).flatten ∧
      (sortBy columnLt cols).Perm cols ∧
      (sortBy columnLt cols).Pairwise (fun c d => c.box.x0 ≤ d.box.x0) ∧
      ∀ col,
        (sortBy paragraphLt (paras.filter (fun p => paragraphInColumn col p))).Perm
          (paras.filter (fun p => paragraphInColumn col p)) ∧
        (sortBy paragraphLt (paras.filter (fun p => paragraphInColumn col p))).Pairwise
          (fun p q => p.box.y0 ≤ q.box.y0)) := by
  constructor
  · intro h1
    by_cases hp : paras.length = 0
    · have hpe : paras = [] := List.length_eq_zero.mp hp
      subst hpe
      simp [determineReadingOrder]
    · have hdef : determineReadingOrder paras cols = sortBy paragraphLt paras := by
        unfold determineReadingOrder
        rw [if_neg hp, if_pos h1]
      rw [hdef]
      exact ⟨sortBy_perm _ _, sortBy_paragraphLt_sorted _⟩
  · intro h2
    have hno : ¬ cols.length ≤ 1 := by omega
    refine ⟨?_, sortBy_perm _ _, sortBy_columnLt_sorted _,
      fun col => ⟨sortBy_perm _ _, sortBy_paragraphLt_sorted _⟩⟩
    by_cases hp : paras.length = 0
    · have hpe : paras = [] := List.length_eq_zero.mp hp
      subst hpe
      have hnil : ∀ (cs : List Column),
          ((cs.map (fun col =>
            sortBy paragraphLt (([] : List Paragraph).filter
              (fun p => paragraphInColumn col p)))).flatten) = [] := by
        intro cs
        induction cs with
        | nil => rfl
        | cons c cs ih => simpa [sortBy] using ih
      have hdef : determineReadingOrder [] cols = [] := by
        unfold determineReadingOrder
        simp
      rw [hdef]
      exact (hnil (sortBy columnLt cols)).symm
    · unfold determineReadingOrder
      rw [if_neg hp, if_neg hno]

/-- Witness for claim C4 at concrete paragraphs/columns, discharging
both column-count hypotheses. -/
theorem determineReadingOrder_spec_witness :
    ((determineReadingOrder [rdoPara1, rdoPara2] [rdoColFull]).Perm
       [rdoPara1, rdoPara2] ∧
     (determineReadingOrder [rdoPara1, rdoPara2] [rdoColFull]).Pairwise
       (fun p q => p.box.y0 ≤ q.box.y0)) ∧
    determineReadingOrder [rdoPara1, rdoPara2] [rdoColL, rdoColR] =
      ((sortBy columnLt [rdoColL, rdoColR]).map (fun col =>
        sortBy paragraphLt ([rdoPara1, rdoPara2].filter
          (fun p => paragraphInColumn col p)))).flatten :=
  ⟨(determineReadingOrder_spec [rdoPara1, rdoPara2] [rdoColFull]).1 (by decide),
   ((determineReadingOrder_spec [rdoPara1, rdoPara2] [rdoColL, rdoColR]).2
     (by decide)).1⟩

/-- Appended filters over mutually exclusive predicates are a
permutation of the filter of their disjunction. -/
theorem filter_append_perm_or (p q : α → Bool)
    (hexcl : ∀ x, p x = true → q x = false) (l : List α) :
    (l.filter p ++ l.filter q).Perm (l.filter (fun x => p x || q x)) := by
  induction l with
  | nil => simp
  | cons x xs ih =>
    by_cases hp : p x = true
    · have hq : q x = false := hexcl x hp
      simp only [List.filter_cons, hp, hq, Bool.true_or, if_true, if_false,
        Bool.false_eq_true, cond_true, cond_false]
      simpa using ih.cons x
    · have hp2 : p x = false := by simpa using hp
      by_cases hq : q x = true
      · simp only [List.filter_cons, hp2, hq, Bool.false_or, if_true, if_false,
          Bool.false_eq_true, cond_true, cond_false]
        exact List.perm_middle.trans (ih.cons x)
      · have hq2 : q x = false := by simpa using hq
        simp only [List.filter_cons, hp2, hq2, Bool.false_or, if_false,
          Bool.false_eq_true, cond_false]
        exact ih

/-- Pointwise-permuted blocks flatten to permuted lists. -/
theorem flatten_map_perm (f g : α → List β) (h : ∀ a, (f a).Perm (g a)) :
    ∀ (l : List α), ((l.map f).flatten).Perm ((l.map g).flatten) := by
  intro l
  induction l with
  | nil => simp
  | cons x xs ih => simpa using (h x).append ih

/-- A permutation leaves `List.any` unchanged. -/
theorem perm_any_eq (f : α → Bool) {l₁ l₂ : List α} (h : l₁.Perm l₂) :
    l₁.any f = l₂.any f := by
  by_cases hx : l₂.any f = true
  · rcases List.any_eq_true.mp hx with ⟨a, ha, hfa⟩
    rw [hx]
    exact List.any_eq_true.mpr ⟨a, h.mem_iff.mpr ha, hfa⟩
  · have hx2 : l₂.any f = false := by simpa using hx
    rw [hx2]
    by_cases hy : l₁.any f = true
    · rcases List.any_eq_true.mp hy with ⟨a, ha, hfa⟩
      exact absurd (List.any_eq_true.mpr ⟨a, h.mem_iff.mp ha, hfa⟩) (by simp [hx2])
    · simpa using hy

/-- For pairwise x-disjoint columns, flattening the per-column filters
of a paragraph list is a permutation of the single filter by
membership in any of the columns. -/
theorem flatten_filter_perm (paras : List Paragraph) :
    ∀ (cs : List Column),
    cs.Pairwise (fun c d => c.box.x1 ≤ d.box.x0 ∨ d.box.x1 ≤ c.box.x0) →
    ((cs.map (fun col =>
      paras.filter (fun p => paragraphInColumn col p))).flatten).Perm
      (paras.filter (fun p => cs.any (fun col => paragraphInColumn col p))) := by
  intro cs
  induction cs with
  | nil => intro _; simp
  | cons c cs ih =>
    intro hpw
    rcases List.pairwise_cons.mp hpw with ⟨hc, hcs⟩
    have hexcl : ∀ p : Paragraph, paragraphInColumn c p = true →
        (cs.any (fun col => paragraphInColumn col p)) = false := by
      intro p hp
      by_cases hany : cs.any (fun col => paragraphInColumn col p) = true
      · rcases List.any_eq_true.mp hany with ⟨d, hd, hdp⟩
        simp only [paragraphInColumn, decide_eq_true_eq] at hp hdp
        rcases hc d hd with hcd | hcd
        · exact absurd hdp.1 (by linarith [hp.2])
        · exact absurd hp.1 (by linarith [hdp.2])
      · simpa using hany
    simp only [List.map_cons, List.flatten_cons]
    have step1 : ((paras.filter (fun p => paragraphInColumn c p)) ++
        ((cs.map (fun col =>
          paras.filter (fun p => paragraphInColumn col p))).flatten)).Perm
        ((paras.filter (fun p => paragraphInColumn c p)) ++
          (paras.filter (fun p => cs.any (fun col => paragraphInColumn col p)))) :=
      List.Perm.append_left _ (ih hcs)
    have step2 := filter_append_perm_or (fun p => paragraphInColumn c p)
      (fun p => cs.any (fun col => paragraphInColumn col p)) hexcl paras
    refine step1.trans (step2.trans ?_)
    have hsame : ∀ p ∈ paras,
        (paragraphInColumn c p || cs.any (fun col => paragraphInColumn col p)) =
        ((c :: cs).any (fun col => paragraphInColumn col p)) := by
      intro p _
      simp [List.any_cons]
    rw [List.filter_congr hsame]

/-- Claim C8: with two or more columns whose x-ranges are pairwise
disjoint, `determineReadingOrder` returns exactly (as a multiset) the
input paragraphs whose box centre lies in some column's half-open
x-range `[x0, x1)`; paragraphs in no column are dropped. -/
theorem determineReadingOrder_filters_by_column (paras : List Paragraph)
    (cols : List Column) (h2 : 2 ≤ cols.length)
    (hdisj : cols.Pairwise (fun c d => c.box.x1 ≤ d.box.x0 ∨ d.box.x1 ≤ c.box.x0)) :
    (determineReadingOrder paras cols).Perm
      (paras.filter (fun p => cols.any (fun col => paragraphInColumn col p))) := by
  have hno : ¬ cols.length ≤ 1 := by omega
  by_cases hp : paras.length = 0
  · have hpe : paras = [] := List.length_eq_zero.mp hp
    subst hpe
    unfold determineReadingOrder
    simp
  · have hdef : determineReadingOrder paras cols =
        ((sortBy columnLt cols).map (fun col =>
          sortBy paragraphLt (paras.filter (fun p => paragraphInColumn col p)))).flatten := by
      unfold determineReadingOrder
      rw [if_neg hp, if_neg hno]
    rw [hdef]
    have hperm := sortBy_perm columnLt cols
    have hdisj2 : (sortBy columnLt cols).Pairwise
        (fun c d => c.box.x1 ≤ d.box.x0 ∨ d.box.x1 ≤ c.box.x0) := by
      refine (List.Perm.pairwise_iff ?_ hperm).mpr hdisj
      intro a b hab
      exact hab.symm
    have hstep1 := flatten_map_perm
      (fun col => sortBy paragraphLt (paras.filter (fun p => paragraphInColumn col p)))
      (fun col => paras.filter (fun p => paragraphInColumn col p))
      (fun col => sortBy_perm paragraphLt _) (sortBy columnLt cols)
    have hstep2 := flatten_filter_perm paras (sortBy columnLt cols) hdisj2
    refine hstep1.trans (hstep2.trans ?_)
    have hany : ∀ p ∈ paras,
        ((sortBy columnLt cols).any (fun col => paragraphInColumn col p)) =
        (cols.any (fun col => paragraphInColumn col p)) := by
      intro p _
      exact perm_any_eq (fun col => paragraphInColumn col p) hperm
    rw [List.filter_congr hany]

/-- Witness for claim C8: two disjoint columns; the paragraph centred
at the right edge of the last column is dropped, so the output is not
a permutation of the input. -/
theorem determineReadingOrder_filters_by_column_witness :
    (determineReadingOrder [colfParaIn, colfParaOut] [colfColA, colfColB]).Perm
      ([colfParaIn, colfParaOut].filter
        (fun p => [colfColA, colfColB].any (fun col => paragraphInColumn col p))) ∧
    [colfParaIn, colfParaOut].filter
      (fun p => [colfColA, colfColB].any (fun col => paragraphInColumn col p)) =
      [colfParaIn] :=
  ⟨determineReadingOrder_filters_by_column [colfParaIn, colfParaOut]
      [colfColA, colfColB] (by decide) (by decide),
   by decide⟩
